import Mathlib

/-!
# cron-burgundy: verification of the execution core

Shallow embedding of the cron-burgundy job manager (state store, lock
manager, schedule model, registry, runner, launchd adapter) translated
from the JavaScript source, together with theorems settling the frozen
claims about the natural-language specification.

Conventions of the embedding:
* Timestamps are natural numbers (milliseconds since the epoch); the JS
  code stores ISO strings whose only observed content is this number.
* JavaScript `undefined` / absent optional values become `Option`.
* JavaScript truthiness is made explicit (`none` and `some 0` are falsy
  for numbers, `none` and `some ""` for strings).
* Filesystem effects are abstracted: persistent state is a value threaded
  through the functions, lock-file availability and the croner library
  are oracles in an environment record, and the runner additionally
  returns a trace of the observable lock / user-operation / state events.
* Fallible JS functions (`throw`) become `Except String`.
-/

namespace CronBurgundy

/-! ## JS string helpers shared by several modules -/

/-- Character class of the JS `\s` (whitespace) for the inputs in scope. -/
def isJsSpace (c : Char) : Bool :=
  c = ' ' || c = '\t' || c = '\n' || c = '\r'

/-- Split a character list at the first occurrence of `c`; returns the
characters before and after it (`indexOf` + two `slice`s in JS). -/
def splitFirst (c : Char) : List Char → Option (List Char × List Char)
  | [] => none
  | x :: xs =>
    if x = c then some ([], xs)
    else (splitFirst c xs).map (fun p => (x :: p.1, p.2))

/-- Does `pat` occur as a contiguous substring of `s` (JS `String.includes`)? -/
def infixOf (pat s : List Char) : Bool :=
  if pat.isPrefixOf s then true
  else match s with
    | [] => pat.isEmpty
    | _ :: rest => infixOf pat rest

/-! ## State store (`src/state.js`)

The persistent state is one JSON object.  Its values are ISO timestamps
(modelled by their millisecond value), the literal `true` written to
`_paused`, or an array of qualified ids.  The object is modelled as an
association list in insertion order; `setKey` mimics JS property
assignment (overwrite in place or append) and `removeKey` the `delete`
operator. -/

/-- A value stored in `state.json`. -/
inductive JVal where
  | time (t : Nat)
  | bool (b : Bool)
  | arr (ids : List String)
deriving DecidableEq, Repr

/-- The in-memory image of `state.json`. -/
def StateMap := List (String × JVal)
deriving DecidableEq, Repr

instance : EmptyCollection StateMap := ⟨([] : List (String × JVal))⟩

/-- Look a key up (JS property read; first binding wins, as an object has
unique keys). -/
def getKey (s : StateMap) (k : String) : Option JVal :=
  match s with
  | [] => none
  | (k', v) :: rest => if k' = k then some v else getKey rest k

/-- JS property assignment: overwrite in place, else append. -/
def setKey (s : StateMap) (k : String) (v : JVal) : StateMap :=
  match s with
  | [] => [(k, v)]
  | (k', v') :: rest =>
    if k' = k then (k, v) :: rest else (k', v') :: setKey rest k v

/-- JS `delete state[k]`. -/
def removeKey (s : StateMap) (k : String) : StateMap :=
  match s with
  | [] => []
  | (k', v') :: rest =>
    if k' = k then removeKey rest k else (k', v') :: removeKey rest k

/-- `getLastRun(jobId)`: the stored last-run timestamp, if any. -/
def getLastRun (s : StateMap) (jobId : String) : Option Nat :=
  match getKey s jobId with
  | some (.time t) => some t
  | _ => none

/-- `getNextScheduledRun(jobId)`. -/
def getNextScheduledRun (s : StateMap) (jobId : String) : Option Nat :=
  match getKey s (jobId ++ ":nextRun") with
  | some (.time t) => some t
  | _ => none

/-- JS truthiness of `options.interval` (a number option). -/
def intervalTruthy : Option Nat → Bool
  | some n => n != 0
  | none => false

/-- `markRun(jobId, options)` under `updateState`: set `state[jobId] = now`;
if `options.interval` is truthy also set `state[jobId + ":nextRun"] =
now + interval`. -/
def markRun (now : Nat) (jobId : String) (interval : Option Nat)
    (s : StateMap) : StateMap :=
  let s1 := setKey s jobId (.time now)
  match interval with
  | some iv => if iv != 0 then setKey s1 (jobId ++ ":nextRun") (.time (now + iv)) else s1
  | none => s1

/-- `isPaused(jobId)`: `_paused === true`, or membership in the `_paused`
array when `jobId` is truthy (non-empty). -/
def isPaused (s : StateMap) (jobId : String) : Bool :=
  match getKey s "_paused" with
  | some (.bool true) => true
  | some (.arr l) => if jobId ≠ "" then l.contains jobId else false
  | _ => false

/-- `pause(jobId)`: `"all"` sets `_paused := true`; a specific id is added
to the array unless `_paused === true`. -/
def pause (jobId : String) (s : StateMap) : StateMap :=
  if jobId = "all" then setKey s "_paused" (.bool true)
  else
    match getKey s "_paused" with
    | some (.bool true) => s
    | some (.arr l) =>
      setKey s "_paused" (.arr (if l.contains jobId then l else l ++ [jobId]))
    | _ => setKey s "_paused" (.arr [jobId])

/-- `resume(jobId)`: `"all"` deletes `_paused`; a specific id is filtered
out of the array, deleting `_paused` when the array becomes empty; a
specific id while `_paused === true` is a no-op. -/
def resume (jobId : String) (s : StateMap) : StateMap :=
  if jobId = "all" then removeKey s "_paused"
  else
    match getKey s "_paused" with
    | some (.arr l) =>
      let l2 := l.filter (fun id => id ≠ jobId)
      if l2.isEmpty then removeKey s "_paused" else setKey s "_paused" (.arr l2)
    | _ => s

/-- Result shape of `getPauseStatus()`. -/
structure PauseStatus where
  all : Bool
  jobs : List String
deriving DecidableEq, Repr

/-- `getPauseStatus()`. -/
def getPauseStatus (s : StateMap) : PauseStatus :=
  match getKey s "_paused" with
  | some (.bool true) => ⟨true, []⟩
  | some (.arr l) => ⟨false, l⟩
  | _ => ⟨false, []⟩

/-! ## Registry (`src/registry.js`) -/

/-- The characters blocked by `validateJobId` (each checked with
`String.includes`, so `".."` is a two-character substring test). -/
def invalidChars : List (List Char) :=
  [['/'], ['\\'], ['.', '.'], [' '], ['\t'], ['\n'], ['\r'],
   [Char.ofNat 0], [':'], ['*'], ['?'], ['"'], ['<'], ['>'], ['|']]

/-- First char of `/^[a-zA-Z0-9_]/`. -/
def isIdStartChar (c : Char) : Bool :=
  (('a' ≤ c && c ≤ 'z') || ('A' ≤ c && c ≤ 'Z') || ('0' ≤ c && c ≤ '9') || c = '_')

/-- Chars of `/^[a-zA-Z0-9_-]+$/`. -/
def isIdChar (c : Char) : Bool :=
  isIdStartChar c || c = '-'

/-- `validateJobId(jobId)`: `.ok` when valid, `.error` with the thrown
message otherwise (checks in source order). -/
def validateJobId (jobId : String) : Except String Unit :=
  if jobId = "" then
    .error "Job ID must be a non-empty string"
  else if jobId.length > 100 then
    .error ("Job ID \"" ++ jobId ++ "\" is too long (max 100 characters)")
  else if infixOf ['.'] jobId.toList then
    .error ("Job ID \"" ++ jobId ++ "\" cannot contain dots (.) - they conflict with plist naming")
  else
    match invalidChars.find? (fun pat => infixOf pat jobId.toList) with
    | some pat =>
      .error ("Job ID \"" ++ jobId ++ "\" contains invalid character: \"" ++ String.mk pat ++ "\"")
    | none =>
      if !(match jobId.toList with
           | c :: _ => isIdStartChar c
           | [] => false) then
        .error ("Job ID \"" ++ jobId ++ "\" must start with a letter, number, or underscore")
      else if !(jobId.toList.all isIdChar) then
        .error ("Job ID \"" ++ jobId ++ "\" contains invalid characters - only letters, numbers, underscores, and hyphens are allowed")
      else
        .ok ()

/-- `qualifyJobId(jobId, namespace)`: `"ns/jobId"` when the namespace is
truthy, the bare id otherwise. -/
def qualifyJobId (jobId : String) (ns : Option String) : String :=
  match ns with
  | none => jobId
  | some n => if n = "" then jobId else n ++ "/" ++ jobId

/-- `parseQualifiedId(id)`: split at the first `/`; no slash means no
namespace. -/
def parseQualifiedId (id : String) : Option String × String :=
  match splitFirst '/' id.toList with
  | none => (none, id)
  | some (a, b) => (some (String.mk a), String.mk b)

/-! ## Human-phrase cron parser (`src/cron-parser.js`)

`parseCronExpression` lowercases and trims its input, looks it up in a
fixed phrase table, then tries a fixed sequence of regular expressions.
Each regular expression of the source is embedded as a hand-written
matcher over `List Char` accepting exactly the same language on the
inputs in scope (the committed left-to-right parses below coincide with
the backtracking regex semantics because no alternative of any of these
patterns overlaps the text that follows it). -/

/-- JS `String.prototype.trim` on the inputs in scope. -/
def trimChars (s : List Char) : List Char :=
  ((s.dropWhile isJsSpace).reverse.dropWhile isJsSpace).reverse

/-- JS `String.prototype.split` with a one-character separator. -/
def splitOnChar (c : Char) : List Char → List (List Char)
  | [] => [[]]
  | x :: xs =>
    if x = c then [] :: splitOnChar c xs
    else
      match splitOnChar c xs with
      | t :: ts => (x :: t) :: ts
      | [] => [[x]]

/-- Numeric value of a digit character. -/
def digitVal (c : Char) : Nat := c.toNat - '0'.toNat

/-- Match a literal string at the head of the input (part of a regex). -/
def expectStr (lit : List Char) (s : List Char) : Option (List Char) :=
  if lit.isPrefixOf s then some (s.drop lit.length) else none

/-- Match one literal character at the head of the input. -/
def expectChar (c : Char) : List Char → Option (List Char)
  | x :: xs => if x = c then some xs else none
  | [] => none

/-- Greedy `(\d{1,2})` followed by a non-digit (no backtracking needed
since a digit can never satisfy the character that follows the group in
the source patterns). -/
def take1or2Digits : List Char → Option (Nat × List Char)
  | c1 :: c2 :: rest =>
    if c1.isDigit then
      if c2.isDigit then some (digitVal c1 * 10 + digitVal c2, rest)
      else some (digitVal c1, c2 :: rest)
    else none
  | [c1] => if c1.isDigit then some (digitVal c1, []) else none
  | [] => none

/-- Exactly `(\d{2})`. -/
def take2Digits : List Char → Option (Nat × List Char)
  | c1 :: c2 :: rest =>
    if c1.isDigit && c2.isDigit then some (digitVal c1 * 10 + digitVal c2, rest)
    else none
  | _ => none

/-- Greedy accumulation of further digits for `(\d+)`. -/
def takeDigitsAux (acc : Nat) : List Char → Nat × List Char
  | c :: rest =>
    if c.isDigit then takeDigitsAux (acc * 10 + digitVal c) rest else (acc, c :: rest)
  | [] => (acc, [])

/-- `(\d+)`: at least one digit, greedily. -/
def take1PlusDigits : List Char → Option (Nat × List Char)
  | c :: rest => if c.isDigit then some (takeDigitsAux (digitVal c) rest) else none
  | [] => none

/-- The optional `(\s*(am|pm))?$` tail after the minutes: end of input, or
optional whitespace followed by `am`/`pm` and then the end. -/
def matchAmPmTail : List Char → Option (Option String)
  | [] => some none
  | cs =>
    match cs.dropWhile isJsSpace with
    | ['a', 'm'] => some (some "am")
    | ['p', 'm'] => some (some "pm")
    | _ => none

/-- The pre-defined phrase table `cronMap`, in source order. -/
def cronMap : List (String × String) :=
  [("every minute", "* * * * *"),
   ("every hour", "0 * * * *"),
   ("every day", "0 0 * * *"),
   ("every week", "0 0 * * 0"),
   ("every month", "0 0 1 * *"),
   ("every year", "0 0 1 1 *"),
   ("yearly", "0 0 1 1 *"),
   ("annually", "0 0 1 1 *"),
   ("monthly", "0 0 1 * *"),
   ("weekly", "0 0 * * 0"),
   ("daily", "0 0 * * *"),
   ("hourly", "0 * * * *"),
   ("weekdays", "0 0 * * 1-5"),
   ("weekends", "0 0 * * 0,6"),
   ("business hours", "0 9-17 * * 1-5"),
   ("after hours", "0 18-8 * * *"),
   ("midnight", "0 0 * * *"),
   ("noon", "0 12 * * *"),
   ("morning", "0 9 * * *"),
   ("evening", "0 18 * * *"),
   ("every 5 minutes", "*/5 * * * *"),
   ("every 10 minutes", "*/10 * * * *"),
   ("every 15 minutes", "*/15 * * * *"),
   ("every 30 minutes", "*/30 * * * *"),
   ("every 2 hours", "0 */2 * * *"),
   ("every 3 hours", "0 */3 * * *"),
   ("every 6 hours", "0 */6 * * *"),
   ("every 12 hours", "0 */12 * * *"),
   ("monday", "0 0 * * 1"),
   ("tuesday", "0 0 * * 2"),
   ("wednesday", "0 0 * * 3"),
   ("thursday", "0 0 * * 4"),
   ("friday", "0 0 * * 5"),
   ("saturday", "0 0 * * 6"),
   ("sunday", "0 0 * * 0"),
   ("first day of month", "0 0 1 * *"),
   ("last day of month", "0 0 L * *"),
   ("middle of month", "0 0 15 * *"),
   ("never", "0 0 30 2 *"),
   ("reboot", "@reboot"),
   ("startup", "@reboot")]

/-- `cronMap[normalizedInput]` (own-property lookup). -/
def cronMapLookup (k : String) : Option String :=
  (cronMap.find? (fun p => p.1 = k)).map (fun p => p.2)

/-- `^at (\d{1,2}):(\d{2})(\s*(am|pm))?$` — yields (hour, minute, am or pm). -/
def matchAtTime (s : List Char) : Option (Nat × Nat × Option String) := do
  let rest ← expectStr "at ".toList s
  let (h, rest) ← take1or2Digits rest
  let rest ← expectChar ':' rest
  let (m, rest) ← take2Digits rest
  let ap ← matchAmPmTail rest
  pure (h, m, ap)

/-- The interval-unit alternation, in regex order. -/
def intervalUnits : List String :=
  ["minute", "minutes", "hour", "hours", "day", "days", "week", "weeks",
   "month", "months"]

/-- `(minute|minutes|…|months)s?$`: the first alternative that, followed by
an optional `s`, consumes the whole input. -/
def matchUnitEnd (s : List Char) : Option String :=
  intervalUnits.find? (fun u =>
    u.toList.isPrefixOf s &&
    (let r := s.drop u.toList.length
     r == [] || r == ['s']))

/-- `^every (\d+) (minute|…|months)s?$` — yields (N, matched unit). -/
def matchEveryN (s : List Char) : Option (Nat × String) := do
  let rest ← expectStr "every ".toList s
  let (n, rest) ← take1PlusDigits rest
  let rest ← expectChar ' ' rest
  let u ← matchUnitEnd rest
  pure (n, u)

/-- `^(\d+) (minute|…|months)s?$` — the shorthand without "every". -/
def matchIntervalN (s : List Char) : Option (Nat × String) := do
  let (n, rest) ← take1PlusDigits s
  let rest ← expectChar ' ' rest
  let u ← matchUnitEnd rest
  pure (n, u)

/-- `unit.replace(/s$/, "")`. -/
def stripTrailingS (u : String) : String :=
  match u.toList.getLast? with
  | some 's' => String.mk u.toList.dropLast
  | _ => u

/-- The `switch (unit)` emitting a cron expression, identical in the
"every N unit" and "N unit" branches of the source. -/
def intervalCron (n : Nat) (base : String) : Except String String :=
  if base = "minute" then .ok ("*/" ++ toString n ++ " * * * *")
  else if base = "hour" then .ok ("0 */" ++ toString n ++ " * * *")
  else if base = "day" then .ok ("0 0 */" ++ toString n ++ " * *")
  else if base = "week" then .ok ("0 0 * * 0/" ++ toString n)
  else if base = "month" then .ok ("0 0 1 */" ++ toString n ++ " *")
  else .error ("Unsupported interval unit: " ++ base)

/-- The weekday-name alternation, in regex order. -/
def dayNames : List String :=
  ["monday", "tuesday", "wednesday", "thursday", "friday", "saturday", "sunday"]

/-- `dayMap` of the source: Sunday = 0 … Saturday = 6. -/
def dayMap (d : String) : Option Nat :=
  if d = "sunday" then some 0
  else if d = "monday" then some 1
  else if d = "tuesday" then some 2
  else if d = "wednesday" then some 3
  else if d = "thursday" then some 4
  else if d = "friday" then some 5
  else if d = "saturday" then some 6
  else none

/-- Match one weekday name (no name is a prefix of another, so the first
alternative that fits is the regex match). -/
def matchDayName (s : List Char) : Option (List Char × List Char) :=
  (dayNames.find? (fun d => d.toList.isPrefixOf s)).map
    (fun d => (d.toList, s.drop d.toList.length))

/-- `(?:,\s*dayname)*`: iterate as long as a comma introduces another
weekday name, accumulating the exact matched characters (group 1 of the
source regex keeps the commas and the whitespace). -/
def matchDayListAux : Nat → List Char → List Char → List Char × List Char
  | 0, acc, s => (acc, s)
  | fuel + 1, acc, s =>
    match s with
    | ',' :: rest =>
      let sp := rest.takeWhile isJsSpace
      let rest2 := rest.dropWhile isJsSpace
      match matchDayName rest2 with
      | some (d, rest3) => matchDayListAux fuel (acc ++ [','] ++ sp ++ d) rest3
      | none => (acc, s)
    | _ => (acc, s)

/-- `^on (dayname(?:,\s*dayname)*) at (\d{1,2}):(\d{2})(\s*(am|pm))?$` —
yields (group 1 characters, hour, minute, am or pm). -/
def matchWeekdayTime (s : List Char) :
    Option (List Char × Nat × Nat × Option String) := do
  let rest ← expectStr "on ".toList s
  let (d1, rest) ← matchDayName rest
  let (grp, rest) := matchDayListAux rest.length d1 rest
  let rest ← expectStr " at ".toList rest
  let (h, rest) ← take1or2Digits rest
  let rest ← expectChar ':' rest
  let (m, rest) ← take2Digits rest
  let ap ← matchAmPmTail rest
  pure (grp, h, m, ap)

/-- `^on (weekdays|weekends) at (\d{1,2}):(\d{2})(\s*(am|pm))?$`. -/
def matchWeekdaysTime (s : List Char) :
    Option (String × Nat × Nat × Option String) := do
  let rest ← expectStr "on ".toList s
  let (which, rest) ←
    match expectStr "weekdays".toList rest with
    | some r => some (("weekdays" : String), r)
    | none =>
      match expectStr "weekends".toList rest with
      | some r => some (("weekends" : String), r)
      | none => none
  let rest ← expectStr " at ".toList rest
  let (h, rest) ← take1or2Digits rest
  let rest ← expectChar ':' rest
  let (m, rest) ← take2Digits rest
  let ap ← matchAmPmTail rest
  pure (which, h, m, ap)

/-- `^on (\d{1,2})(?:st|nd|rd|th) of month at (\d{1,2}):(\d{2})(\s*(am|pm))?$`. -/
def matchOrdinalMonth (s : List Char) :
    Option (Nat × Nat × Nat × Option String) := do
  let rest ← expectStr "on ".toList s
  let (dom, rest) ← take1or2Digits rest
  let rest ←
    match expectStr "st".toList rest with
    | some r => some r
    | none =>
      match expectStr "nd".toList rest with
      | some r => some r
      | none =>
        match expectStr "rd".toList rest with
        | some r => some r
        | none => expectStr "th".toList rest
  let rest ← expectStr " of month at ".toList rest
  let (h, rest) ← take1or2Digits rest
  let rest ← expectChar ':' rest
  let (m, rest) ← take2Digits rest
  let ap ← matchAmPmTail rest
  pure (dom, h, m, ap)

/-- JS `str.split(/\s+/)` on the inputs in scope: split on runs of
whitespace, a leading run contributing a leading empty field and a
trailing run a trailing empty field. -/
def jsSplitWsAux : Nat → List Char → List Char → List (List Char)
  | 0, acc, _ => [acc.reverse]
  | _, acc, [] => [acc.reverse]
  | fuel + 1, acc, c :: cs =>
    if isJsSpace c then acc.reverse :: jsSplitWsAux fuel [] (cs.dropWhile isJsSpace)
    else jsSplitWsAux fuel (c :: acc) cs

/-- See `jsSplitWsAux`. -/
def jsSplitWs (s : List Char) : List (List Char) :=
  jsSplitWsAux (s.length + 1) [] s

/-- One field of `/^[\*\d,\-\/LW#]+$/i`. -/
def cronFieldOk (p : List Char) : Bool :=
  !p.isEmpty && p.all (fun c =>
    c = '*' || c.isDigit || c = ',' || c = '-' || c = '/' ||
    c = 'l' || c = 'w' || c = '#' || c = 'L' || c = 'W')

/-- The source applies this hour adjustment inline after each time match:
`pm` adds 12 unless the hour is 12, `am` maps hour 12 to 0. -/
def adjustHour (h : Nat) (ap : Option String) : Nat :=
  if ap = some "pm" && h ≠ 12 then h + 12
  else if ap = some "am" && h = 12 then 0
  else h

/-- `parseCronExpression(input)`: the full matcher chain of the source,
returning the cron expression or the thrown error message. -/
def parseCronExpression (input : String) : Except String String :=
  if input = "" then .error "Cron input must be a non-empty string"
  else
    let normalizedInput := String.mk (trimChars (input.toList.map Char.toLower))
    match cronMapLookup normalizedInput with
    | some cron => .ok cron
    | none =>
      let s := normalizedInput.toList
      match matchAtTime s with
      | some (h, m, ap) =>
        .ok (toString m ++ " " ++ toString (adjustHour h ap) ++ " * * *")
      | none =>
      match matchEveryN s with
      | some (n, u) => intervalCron n (stripTrailingS u)
      | none =>
      match matchIntervalN s with
      | some (n, u) => intervalCron n (stripTrailingS u)
      | none =>
      match matchWeekdayTime s with
      | some (grp, h, m, ap) =>
        let days := (splitOnChar ',' grp).map (fun d => String.mk (trimChars d))
        let dayOfWeek := String.intercalate ","
          (days.map (fun d =>
            match dayMap d with
            | some k => toString k
            | none => "undefined"))
        .ok (toString m ++ " " ++ toString (adjustHour h ap) ++ " * * " ++ dayOfWeek)
      | none =>
      match matchWeekdaysTime s with
      | some (which, h, m, ap) =>
        let dayRange := if which = "weekdays" then "1-5" else "0,6"
        .ok (toString m ++ " " ++ toString (adjustHour h ap) ++ " * * " ++ dayRange)
      | none =>
      match matchOrdinalMonth s with
      | some (dom, h, m, ap) =>
        .ok (toString m ++ " " ++ toString (adjustHour h ap) ++ " " ++ toString dom ++ " * *")
      | none =>
        let parts := jsSplitWs s
        if parts.length = 5 && parts.all cronFieldOk then .ok normalizedInput
        else
          .error ("Unrecognized cron pattern: \"" ++ input ++ "\". Try: " ++
            String.intercalate ", " ((cronMap.take 8).map (fun p => p.1)))

/-- `isHumanReadable(input)`: not exactly five fields of `/^[\*\d,\-\/]+$/`. -/
def isHumanReadable (input : String) : Bool :=
  if input = "" then false
  else
    let parts := jsSplitWs (trimChars input.toList)
    !(parts.length = 5 && parts.all (fun p =>
      !p.isEmpty && p.all (fun c =>
        c = '*' || c.isDigit || c = ',' || c = '-' || c = '/')))

/-- `normalizeSchedule(schedule)`: convert human phrases to cron, pass
cron expressions through. -/
def normalizeSchedule (schedule : String) : Except String String :=
  if schedule = "" then .ok schedule
  else if isHumanReadable schedule then parseCronExpression schedule
  else .ok schedule

/-! ## Schedule model (`src/scheduler.js`)

The croner library (`new Cron(expr)` and its next-fire computation) is
not part of this repository; it is an oracle `cronIntervalMs` in the
runner environment, returning the interval between the next two fires or
the error thrown on an invalid expression. -/

deriving instance DecidableEq for Except

/-- A job definition (the `Job` typedef of `src/scheduler.js`, plus the
`_qualifiedId` the registry loader attaches).  The opaque user operation
`run` is modelled by its outcome: success or the thrown error message. -/
structure Job where
  id : String
  qualifiedId : Option String := none
  description : Option String := none
  schedule : Option String := none
  interval : Option Nat := none
  enabled : Option Bool := none
  run : Except String Unit := .ok ()
deriving DecidableEq, Repr

/-- `job._qualifiedId || job.id`. -/
def jobIdOf (job : Job) : String :=
  match job.qualifiedId with
  | some q => if q = "" then job.id else q
  | none => job.id

/-- `isEnabled(job)`: `job.enabled !== false`. -/
def isEnabled (job : Job) : Bool :=
  job.enabled ≠ some false

/-- Oracles for the effects the runner consults: per-job lock-file
availability (`acquireLock` succeeding) and the croner library behind
`getIntervalMs` for cron-scheduled jobs. -/
structure RunEnv where
  lockFree : String → Bool
  cronIntervalMs : String → Except String Nat

/-- `getCronSchedule(job)`: `undefined` without a schedule, otherwise the
normalized cron expression (normalization may throw). -/
def getCronSchedule (job : Job) : Except String (Option String) :=
  match job.schedule with
  | none => .ok none
  | some sch =>
    if sch = "" then .ok none else (normalizeSchedule sch).map some

/-- The cron branch of `getIntervalMs`. -/
def getIntervalMsCron (env : RunEnv) (job : Job) : Except String Nat := do
  match ← getCronSchedule job with
  | some cronSchedule =>
    if cronSchedule ≠ "" then env.cronIntervalMs cronSchedule
    else .error ("Job " ++ job.id ++ " has no schedule or interval")
  | none => .error ("Job " ++ job.id ++ " has no schedule or interval")

/-- `getIntervalMs(job)`: a truthy `interval` wins, else the cron branch. -/
def getIntervalMs (env : RunEnv) (job : Job) : Except String Nat :=
  match job.interval with
  | some iv => if iv ≠ 0 then .ok iv else getIntervalMsCron env job
  | none => getIntervalMsCron env job

/-- `shouldRun(job, lastRun)`: never run means due; otherwise due when
`now − lastRun ≥ getIntervalMs(job)` (the elapsed difference is signed in
JS, hence the `Int` comparison). -/
def shouldRun (env : RunEnv) (now : Nat) (job : Job) (lastRun : Option Nat) :
    Except String Bool :=
  match lastRun with
  | none => .ok true
  | some t => (getIntervalMs env job).map (fun iv => decide ((now : Int) - t ≥ (iv : Int)))

/-! ## Native-trigger adapter (`src/launchd.js`) -/

/-- A JS number as produced by `parseInt`: an integer or `NaN`. -/
inductive JNum where
  | nan
  | val (i : Int)
deriving DecidableEq, Repr

/-- `parseInt(s, 10)`: skip whitespace, optional sign, leading digits;
`NaN` when no digit is found. -/
def jsParseInt (s : List Char) : JNum :=
  let go : List Char → Option Nat := fun cs =>
    match cs with
    | c :: rest => if c.isDigit then some (takeDigitsAux (digitVal c) rest).1 else none
    | [] => none
  match s.dropWhile isJsSpace with
  | '-' :: rest => match go rest with | some n => .val (-(n : Int)) | none => .nan
  | '+' :: rest => match go rest with | some n => .val (n : Int) | none => .nan
  | rest => match go rest with | some n => .val (n : Int) | none => .nan

/-- `i = start; i <= end; i++`: the integers of the inclusive range. -/
def intRange (a b : Int) : List Int :=
  (List.range (b - a + 1).toNat).map (fun k => a + k)

/-- `Set.add` (SameValueZero, under which `NaN` equals `NaN`), keeping
insertion order. -/
def jnumInsert (l : List JNum) (x : JNum) : List JNum :=
  if l.contains x then l else l ++ [x]

/-- `[...values].sort((a, b) => a - b)` on the value sets produced here
(pairwise-distinct numbers, or a lone `NaN`): ascending insertion sort in
which `NaN` compares as equal to everything. -/
def jnumLe (a b : JNum) : Bool :=
  match a, b with
  | .val x, .val y => x ≤ y
  | _, _ => true

/-- Insert into an ascending list, after equals. -/
def insertSorted (a : JNum) : List JNum → List JNum
  | [] => [a]
  | b :: bs => if jnumLe b a then b :: insertSorted a bs else a :: b :: bs

/-- See `jnumLe`. -/
def sortJs (l : List JNum) : List JNum :=
  l.foldl (fun acc a => insertSorted a acc) []

/-- `expandCronField(field)`: `*` is the wildcard (`none`); otherwise the
comma-separated parts contribute single values or inclusive `a-b` ranges
to a set, returned sorted.  A part that is neither (such as the step
`*/5`) contributes `parseInt`'s `NaN`; a range with an unparseable bound
runs an empty loop. -/
def expandCronField (field : String) : Option (List JNum) :=
  if field = "*" then none
  else
    let values := (splitOnChar ',' field.toList).foldl (fun acc part =>
      if part.contains '-' then
        match splitOnChar '-' part with
        | p1 :: p2 :: _ =>
          match jsParseInt p1, jsParseInt p2 with
          | .val a, .val b =>
            (intRange a b).foldl (fun ac i => jnumInsert ac (.val i)) acc
          | _, _ => acc
        | _ => acc
      else jnumInsert acc (jsParseInt part)) []
    some (sortJs values)

/-- One `StartCalendarInterval` record; a `none` field is omitted from the
plist (its cron field was a wildcard). -/
structure CalRecord where
  Minute : Option JNum := none
  Hour : Option JNum := none
  Day : Option JNum := none
  Month : Option JNum := none
  Weekday : Option JNum := none
deriving DecidableEq, Repr

/-- `intervals.length === 1 ? intervals[0] : intervals`. -/
inductive CalResult where
  | one (r : CalRecord)
  | many (rs : List CalRecord)
deriving DecidableEq, Repr

/-- The five nested loops of `cronToCalendarInterval`: the Cartesian
product over the per-field value lists (`[null]` for a wildcard). -/
def buildIntervals (minuteVals hourVals dayVals monthVals weekdayVals :
    List (Option JNum)) : List CalRecord :=
  minuteVals.flatMap (fun m =>
    hourVals.flatMap (fun h =>
      dayVals.flatMap (fun d =>
        monthVals.flatMap (fun mo =>
          weekdayVals.map (fun wd => ⟨m, h, d, mo, wd⟩)))))

/-- `[null]` for a wildcard field, the expanded values otherwise. -/
def fieldVals : Option (List JNum) → List (Option JNum)
  | none => [none]
  | some l => l.map some

/-- `cronToCalendarInterval(cronExpr)`. -/
def cronToCalendarInterval (cronExpr : String) : Except String CalResult :=
  match jsSplitWs (trimChars cronExpr.toList) with
  | [minute, hour, dayOfMonth, month, dayOfWeek] =>
    let intervals := buildIntervals
      (fieldVals (expandCronField (String.mk minute)))
      (fieldVals (expandCronField (String.mk hour)))
      (fieldVals (expandCronField (String.mk dayOfMonth)))
      (fieldVals (expandCronField (String.mk month)))
      (fieldVals (expandCronField (String.mk dayOfWeek)))
    match intervals with
    | [r] => .ok (.one r)
    | rs => .ok (.many rs)
  | _ => .error ("Invalid cron expression: " ++ cronExpr)

/-- `getJobLabel(jobId, namespace)`. -/
def getJobLabel (jobId : String) (ns : Option String) : String :=
  match ns with
  | some n =>
    if n ≠ "" then "com.cron-burgundy.job." ++ n ++ "." ++ jobId
    else "com.cron-burgundy.job." ++ jobId
  | none => "com.cron-burgundy.job." ++ jobId

/-- `path.dirname` for the absolute paths in scope. -/
def dirname (p : String) : String :=
  match p.toList.reverse.dropWhile (fun c => c ≠ '/') with
  | _ :: rest => String.mk rest.reverse
  | [] => "."

def MIN_INTERVAL_SECONDS : Nat := 10

def MIN_INTERVAL_MS : Nat := MIN_INTERVAL_SECONDS * 1000

/-- Host facts `generateJobPlistConfig` reads from outside the repository:
the node binary (`which node`) and the locations the paths are built from. -/
structure PlistEnv where
  nodePath : String
  projectRoot : String
  home : String

/-- The schedule part of a generated plist. -/
inductive PlistSchedule where
  | calendar (c : CalResult)
  | startInterval (seconds : Nat)
  | unset
deriving DecidableEq, Repr

/-- The plist record `generateJobPlistConfig` builds. -/
structure PlistConfig where
  label : String
  programArguments : List String
  standardOutPath : String
  standardErrorPath : String
  workingDirectory : String
  pathEnv : String
  schedule : PlistSchedule
deriving DecidableEq, Repr

/-- The `else if (job.interval)` branch of `generateJobPlistConfig`. -/
def plistIntervalPart (job : Job) (base : PlistConfig) :
    Except String PlistConfig :=
  match job.interval with
  | some iv =>
    if iv ≠ 0 then
      if iv < MIN_INTERVAL_MS then
        .error ("Job \"" ++ job.id ++ "\": interval must be at least " ++
          toString MIN_INTERVAL_SECONDS ++ " seconds (" ++
          toString MIN_INTERVAL_MS ++ "ms), got " ++ toString iv ++ "ms")
      else pure { base with schedule := .startInterval (iv / 1000) }
    else pure base
  | none => pure base

/-- `generateJobPlistConfig(job, jobFileDir, namespace)`.  Note: the
function builds the config directly from `job.id`; it performs no id
validation of its own. -/
def generateJobPlistConfig (env : PlistEnv) (job : Job) (jobFileDir : String)
    (ns : Option String) : Except String PlistConfig :=
  let logDir := env.home ++ "/.cron-burgundy"
  let qualifiedId := qualifyJobId job.id ns
  let base : PlistConfig := {
    label := getJobLabel job.id ns
    programArguments :=
      [env.nodePath, env.projectRoot ++ "/bin/cli.js", "run", "--scheduled", qualifiedId]
    standardOutPath := logDir ++ "/runner.log"
    standardErrorPath := logDir ++ "/runner.error.log"
    workingDirectory := jobFileDir
    pathEnv := dirname env.nodePath ++ ":/usr/local/bin:/usr/bin:/bin"
    schedule := .unset }
  match job.schedule with
  | some sch =>
    if sch ≠ "" then do
      let cronSchedule ← normalizeSchedule sch
      let cal ← cronToCalendarInterval cronSchedule
      pure { base with schedule := .calendar cal }
    else plistIntervalPart job base
  | none => plistIntervalPart job base

/-! ## Runner (`src/runner.js`)

Each entry point is a state transformer that also returns the trace of
its observable lock, user-operation, state-marking and notification
events, in program order.  Logging is not modelled. -/

/-- Observable runner events. -/
inductive Event where
  | lockAcquire (qid : String) (ok : Bool)
  | lockRelease (qid : String)
  | userRun (qid : String)
  | markRunEv (qid : String) (interval : Option Nat)
  | notify (qid : String)
deriving DecidableEq, Repr

/-- The five-way outcome of `runIfDue`, plus the propagated exception the
caller's `catch` turns into `failed`. -/
inductive Outcome where
  | ran
  | skipped
  | disabled
  | paused
  | failed
  | thrown (msg : String)
deriving DecidableEq, Repr

/-- Result of one `runIfDue` call. -/
structure StepRes where
  outcome : Outcome
  state : StateMap
  trace : List Event
deriving DecidableEq, Repr

/-- `runIfDue(job)`: gate on enabled, paused and due-ness, then execute
the user operation and mark state only on success.  No lock is taken. -/
def runIfDue (env : RunEnv) (now : Nat) (job : Job) (s : StateMap) : StepRes :=
  let jobId := jobIdOf job
  if !isEnabled job then ⟨.disabled, s, []⟩
  else if isPaused s jobId then ⟨.paused, s, []⟩
  else
    let lastRun := getLastRun s jobId
    match shouldRun env now job lastRun with
    | .error e => ⟨.thrown e, s, []⟩
    | .ok false => ⟨.skipped, s, []⟩
    | .ok true =>
      match job.run with
      | .ok _ =>
        ⟨.ran, markRun now jobId none s, [.userRun jobId, .markRunEv jobId none]⟩
      | .error _ =>
        ⟨.failed, s, [.userRun jobId, .notify jobId]⟩

/-- Result of `runAllDue`. -/
structure RadRes where
  ran : List String
  skipped : List String
  disabled : List String
  paused : List String
  failed : List String
  state : StateMap
  trace : List Event
deriving DecidableEq, Repr

/-- `runAllDue(jobs)`: classify every job through `runIfDue`; an exception
escaping `runIfDue` is caught and the job recorded as failed. -/
def runAllDue (env : RunEnv) (now : Nat) : List Job → StateMap → RadRes
  | [], s => ⟨[], [], [], [], [], s, []⟩
  | job :: rest, s =>
    let step := runIfDue env now job s
    let r := runAllDue env now rest step.state
    let jobId := jobIdOf job
    match step.outcome with
    | .ran => { r with ran := jobId :: r.ran, trace := step.trace ++ r.trace }
    | .disabled => { r with disabled := jobId :: r.disabled, trace := step.trace ++ r.trace }
    | .paused => { r with paused := jobId :: r.paused, trace := step.trace ++ r.trace }
    | .failed => { r with failed := jobId :: r.failed, trace := step.trace ++ r.trace }
    | .skipped => { r with skipped := jobId :: r.skipped, trace := step.trace ++ r.trace }
    | .thrown _ => { r with failed := jobId :: r.failed, trace := step.trace ++ r.trace }

/-- The options of `runJobNow`. -/
structure Options where
  scheduled : Bool := false
deriving DecidableEq, Repr

/-- Result of one `runJobNow` call: the normal or re-raised completion,
the final persistent state and the event trace. -/
structure RunRes where
  result : Except String Unit
  state : StateMap
  trace : List Event
deriving DecidableEq, Repr

/-- `runJobNow(job, options)`: pause gate (scheduled runs only), lock
acquisition (a refusal is a normal return), user operation, marking on
success (with the interval exactly when scheduled and `job.interval` is
truthy), notification and re-raise on failure, lock release on every
exit path after acquisition. -/
def runJobNow (env : RunEnv) (now : Nat) (job : Job) (options : Options)
    (s : StateMap) : RunRes :=
  let jobId := jobIdOf job
  if options.scheduled && isPaused s jobId then ⟨.ok (), s, []⟩
  else if !env.lockFree jobId then ⟨.ok (), s, [.lockAcquire jobId false]⟩
  else
    match job.run with
    | .ok _ =>
      let markOptions :=
        if options.scheduled && intervalTruthy job.interval then job.interval else none
      ⟨.ok (), markRun now jobId markOptions s,
       [.lockAcquire jobId true, .userRun jobId, .markRunEv jobId markOptions,
        .lockRelease jobId]⟩
    | .error e =>
      ⟨.error e, s,
       [.lockAcquire jobId true, .userRun jobId, .notify jobId, .lockRelease jobId]⟩

/-- Outcome of the CLI `run <jobId> [--scheduled]` action after the job
was found (`src/bin/cli.js`): it skips a disabled job only when the
`--scheduled` flag is passed, otherwise it always calls `runJobNow`. -/
inductive CliRunResult where
  | skippedDisabled
  | completed (r : RunRes)
deriving DecidableEq, Repr

/-- The disabled gate of the CLI `run` action. -/
def cliRun (env : RunEnv) (now : Nat) (job : Job) (scheduled : Bool)
    (s : StateMap) : CliRunResult :=
  if scheduled && !isEnabled job then .skippedDisabled
  else .completed (runJobNow env now job ⟨scheduled⟩ s)

/-- Replay a trace, checking that every user operation runs while the
per-job lock for its qualified id is held. -/
def userRunsLocked : List String → List Event → Bool
  | _, [] => true
  | held, .lockAcquire q true :: rest => userRunsLocked (q :: held) rest
  | held, .lockAcquire _ false :: rest => userRunsLocked held rest
  | held, .lockRelease q :: rest => userRunsLocked (held.erase q) rest
  | held, .userRun q :: rest => held.contains q && userRunsLocked held rest
  | held, _ :: rest => userRunsLocked held rest

/-- Is an event a lock acquisition or release? -/
def isLockEvent : Event → Bool
  | .lockAcquire _ _ => true
  | .lockRelease _ => true
  | _ => false

/-- Is an event a `markRun` state update? -/
def isMarkEvent : Event → Bool
  | .markRunEv _ _ => true
  | _ => false

/-- Number of `StartCalendarInterval` records of a conversion result. -/
def calCount : CalResult → Nat
  | .one _ => 1
  | .many rs => rs.length

/-- The five outcome lists of a `runAllDue` result, concatenated. -/
def resultIds (r : RadRes) : List String :=
  r.ran ++ r.skipped ++ r.disabled ++ r.paused ++ r.failed

/-! ## Helper lemmas about the state mapping -/

theorem getKey_setKey_self (s : StateMap) (k : String) (v : JVal) :
    getKey (setKey s k v) k = some v := by
  induction s with
  | nil => simp [setKey, getKey]
  | cons p rest ih =>
    obtain ⟨k2, v2⟩ := p
    by_cases h : k2 = k
    · simp [setKey, getKey, h]
    · simp [setKey, getKey, h, ih]

theorem getKey_setKey_ne (s : StateMap) (k k2 : String) (v : JVal)
    (h : k ≠ k2) : getKey (setKey s k2 v) k = getKey s k := by
  induction s with
  | nil => simp [setKey, getKey, Ne.symm h]
  | cons p rest ih =>
    obtain ⟨k3, v3⟩ := p
    by_cases h3 : k3 = k2
    · subst h3
      simp [setKey, getKey, Ne.symm h]
    · simp [setKey, getKey, h3, ih]

theorem getKey_removeKey_self (s : StateMap) (k : String) :
    getKey (removeKey s k) k = none := by
  induction s with
  | nil => simp [removeKey, getKey]
  | cons p rest ih =>
    obtain ⟨k2, v2⟩ := p
    by_cases h : k2 = k
    · simp [removeKey, h, ih]
    · simp [removeKey, getKey, h, ih]

theorem ne_nextRunKey (q : String) : q ≠ q ++ ":nextRun" := by
  intro h
  have hl := congrArg String.length h
  rw [String.length_append] at hl
  have h8 : (":nextRun" : String).length = 8 := by decide
  omega

/-- After pausing, the `_paused` entry is an array containing the id; from
there a resume of the same id always leaves it unpaused. -/
theorem resume_after_arr (s : StateMap) (qid : String) (L : List String)
    (hL : L.contains qid = true) :
    isPaused (resume qid (setKey s "_paused" (.arr L))) qid = false := by
  by_cases hall : qid = "all"
  · subst hall
    simp [resume, isPaused, getKey_removeKey_self]
  · have hget := getKey_setKey_self s "_paused" (.arr L)
    simp only [resume, hall, if_false, hget]
    by_cases he : (L.filter (fun id => id ≠ qid)).isEmpty
    · rw [if_pos he]
      simp [isPaused, getKey_removeKey_self]
    · rw [if_neg he]
      simp [isPaused, getKey_setKey_self]

/-! ## Claim theorems -/

/-- C2 (counterexample): `cronToCalendarInterval "*/5 * * * *"` does not
produce 12 records with minutes 0,5,…,55; it produces a single record
whose `Minute` is `NaN` (the `parseInt` of the unhandled step field). -/
theorem C2_counterexample :
    cronToCalendarInterval "*/5 * * * *" = .ok (.one { Minute := some .nan }) ∧
    (cronToCalendarInterval "*/5 * * * *").map calCount = .ok 1 := by
  exact ⟨by decide, by decide⟩

/-- Length of a `flatMap` whose pieces all have the same length. -/
theorem length_flatMap_const {α β : Type} (l : List α) (f : α → List β) (k : Nat)
    (h : ∀ x, (f x).length = k) : (l.flatMap f).length = l.length * k := by
  induction l with
  | nil => simp
  | cons x xs ih =>
    simp [List.flatMap_cons, h, ih, Nat.succ_mul, Nat.add_comm]

/-- The nested loops emit the full Cartesian product of the field values. -/
theorem buildIntervals_length (a b c d e : List (Option JNum)) :
    (buildIntervals a b c d e).length =
      a.length * (b.length * (c.length * (d.length * e.length))) := by
  unfold buildIntervals
  refine length_flatMap_const _ _ _ (fun m => ?_)
  refine length_flatMap_const _ _ _ (fun h => ?_)
  refine length_flatMap_const _ _ _ (fun d2 => ?_)
  refine length_flatMap_const _ _ _ (fun mo => ?_)
  simp

/-- C2 (amended): `cronToCalendarInterval` expands lists and ranges into
the Cartesian product of the listed values across fields, omitting
wildcard fields — `"0 6-8 * * *"` gives the three records
`{Minute:0,Hour:6..8}` and `"0 9 * * 1-5"` the five records with
`Weekday` 1..5, and in general the record count is the product of the
per-field value counts — but a step field is not expanded: `"*/5 * * * *"`
yields a single record whose `Minute` is `parseInt`'s `NaN`. -/
theorem C2_cron_expansion :
    cronToCalendarInterval "0 6-8 * * *" = .ok (.many
      [{ Minute := some (.val 0), Hour := some (.val 6) },
       { Minute := some (.val 0), Hour := some (.val 7) },
       { Minute := some (.val 0), Hour := some (.val 8) }]) ∧
    cronToCalendarInterval "0 9 * * 1-5" = .ok (.many
      [{ Minute := some (.val 0), Hour := some (.val 9), Weekday := some (.val 1) },
       { Minute := some (.val 0), Hour := some (.val 9), Weekday := some (.val 2) },
       { Minute := some (.val 0), Hour := some (.val 9), Weekday := some (.val 3) },
       { Minute := some (.val 0), Hour := some (.val 9), Weekday := some (.val 4) },
       { Minute := some (.val 0), Hour := some (.val 9), Weekday := some (.val 5) }]) ∧
    cronToCalendarInterval "*/5 * * * *" = .ok (.one { Minute := some .nan }) ∧
    (∀ a b c d e : List (Option JNum),
      (buildIntervals a b c d e).length =
        a.length * (b.length * (c.length * (d.length * e.length)))) := by
  exact ⟨by decide, by decide, by decide, buildIntervals_length⟩

/-- C5: `markRun(qid, {interval})` stores the run time under `qid` and the
same time plus the interval under `qid:nextRun`, so `nextRun = lastRun +
interval`; and a successful executed `runJobNow` persists exactly
`markRun` with the interval supplied precisely when the run is scheduled
and `job.interval` is truthy. -/
theorem C5_markRun_nextRun :
    (∀ (now : Nat) (qid : String) (iv : Nat) (s : StateMap), iv ≠ 0 →
      getLastRun (markRun now qid (some iv) s) qid = some now ∧
      getNextScheduledRun (markRun now qid (some iv) s) qid = some (now + iv)) ∧
    (∀ (env : RunEnv) (now : Nat) (job : Job) (options : Options) (s : StateMap),
      job.run = .ok () →
      (options.scheduled && isPaused s (jobIdOf job)) = false →
      env.lockFree (jobIdOf job) = true →
      (runJobNow env now job options s).state =
        markRun now (jobIdOf job)
          (if options.scheduled && intervalTruthy job.interval then job.interval
           else none) s) := by
  constructor
  · intro now qid iv s hiv
    have hne : qid ≠ qid ++ ":nextRun" := ne_nextRunKey qid
    have hbne : (iv != 0) = true := by simpa using hiv
    constructor
    · simp [markRun, hbne, getLastRun, getKey_setKey_ne _ _ _ _ hne, getKey_setKey_self]
    · simp [markRun, hbne, getNextScheduledRun, getKey_setKey_self]
  · intro env now job options s hrun hgate hlock
    simp [runJobNow, hgate, hlock, hrun]

/-- C5 (witness): the theorem applied at `qid = "t"`, `interval = 60000`,
`now = 1000`, a scheduled run of an interval job from the empty state. -/
theorem C5_witness :
    getLastRun (markRun 1000 "t" (some 60000) ∅) "t" = some 1000 ∧
    getNextScheduledRun (markRun 1000 "t" (some 60000) ∅) "t" = some 61000 ∧
    (runJobNow ⟨fun _ => true, fun _ => .ok 0⟩ 1000
        { id := "t", interval := some 60000 } ⟨true⟩ ∅).state =
      markRun 1000 "t" (some 60000) ∅ := by
  refine ⟨(C5_markRun_nextRun.1 1000 "t" 60000 ∅ (by decide)).1,
          (C5_markRun_nextRun.1 1000 "t" 60000 ∅ (by decide)).2, ?_⟩
  have h := C5_markRun_nextRun.2 ⟨fun _ => true, fun _ => .ok 0⟩ 1000
    { id := "t", interval := some 60000 } ⟨true⟩ ∅ (by rfl) (by decide) (by rfl)
  exact h.trans (by decide)

/-- C6: the claim matches the intended validation (`validateJobId` rejects
`"a.b"`, `""` and `"-x"` with exactly the quoted messages, and the
launchd test suite asserts `generateJobPlistConfig` does so too), but the
`generateJobPlistConfig` in `src/launchd.js` never invokes the
validation: for every environment it happily builds a config for the
dotted id `"a.b"`. -/
theorem C6_launchd_builds_config_without_validation :
    (∀ env : PlistEnv,
      generateJobPlistConfig env { id := "a.b", interval := some 60000 } "/p" none =
        .ok { label := "com.cron-burgundy.job.a.b",
              programArguments := [env.nodePath, env.projectRoot ++ "/bin/cli.js",
                "run", "--scheduled", "a.b"],
              standardOutPath := (env.home ++ "/.cron-burgundy") ++ "/runner.log",
              standardErrorPath := (env.home ++ "/.cron-burgundy") ++ "/runner.error.log",
              workingDirectory := "/p",
              pathEnv := dirname env.nodePath ++ ":/usr/local/bin:/usr/bin:/bin",
              schedule := .startInterval 60 }) ∧
    validateJobId "a.b" =
      .error "Job ID \"a.b\" cannot contain dots (.) - they conflict with plist naming" ∧
    validateJobId "" = .error "Job ID must be a non-empty string" ∧
    validateJobId "-x" =
      .error "Job ID \"-x\" must start with a letter, number, or underscore" := by
  refine ⟨fun env => ?_, by decide, by decide, by decide⟩
  rfl

/-- C7 (counterexample): from the globally paused starting state
(`_paused = true`), `pause("x")` then `resume("x")` leaves `"x"` paused,
refuting the claim for every starting state. -/
theorem C7_counterexample :
    isPaused (resume "x" (pause "x" [("_paused", JVal.bool true)])) "x" = true := by
  decide

/-- C7 (amended): provided the starting state is not globally paused
(`_paused` is not the literal `true`), `pause(qid)` then `resume(qid)`
leaves `isPaused(qid) = false`; `pause("all")` then `resume("all")`
yields `{all: false, jobs: ∅}` from every starting state; and resuming a
specific id while `_paused === true` is a no-op. -/
theorem C7_pause_resume :
    (∀ (s : StateMap) (qid : String), getKey s "_paused" ≠ some (.bool true) →
      isPaused (resume qid (pause qid s)) qid = false) ∧
    (∀ s : StateMap, getPauseStatus (resume "all" (pause "all" s)) = ⟨false, []⟩) ∧
    (∀ (s : StateMap) (qid : String), qid ≠ "all" →
      getKey s "_paused" = some (.bool true) → resume qid s = s) := by
  refine ⟨?_, ?_, ?_⟩
  · intro s qid h
    by_cases hall : qid = "all"
    · subst hall
      simp [pause, resume, isPaused, getKey_removeKey_self]
    · rcases hgk : getKey s "_paused" with _ | v
      · have hp : pause qid s = setKey s "_paused" (.arr [qid]) := by
          simp [pause, hall, hgk]
        rw [hp]
        exact resume_after_arr s qid [qid] (by simp)
      · cases v with
        | time t =>
          have hp : pause qid s = setKey s "_paused" (.arr [qid]) := by
            simp [pause, hall, hgk]
          rw [hp]
          exact resume_after_arr s qid [qid] (by simp)
        | bool b =>
          cases b with
          | true => exact absurd hgk h
          | false =>
            have hp : pause qid s = setKey s "_paused" (.arr [qid]) := by
              simp [pause, hall, hgk]
            rw [hp]
            exact resume_after_arr s qid [qid] (by simp)
        | arr l =>
          have hp : pause qid s =
              setKey s "_paused" (.arr (if l.contains qid then l else l ++ [qid])) := by
            simp [pause, hall, hgk]
          rw [hp]
          refine resume_after_arr s qid _ ?_
          by_cases hc : qid ∈ l <;> simp [hc]
  · intro s
    simp [pause, resume, getPauseStatus, getKey_removeKey_self]
  · intro s qid hall hp
    simp [resume, hall, hp]

/-- C7 (witness): the amended theorem at concrete inputs — an unpaused
starting state with `qid = "x"`, an arbitrary state for the "all" part,
and the globally paused state for the no-op part. -/
theorem C7_witness :
    isPaused (resume "x" (pause "x" [("t", JVal.time 5)])) "x" = false ∧
    getPauseStatus (resume "all" (pause "all" [("_paused", JVal.arr ["a"])])) = ⟨false, []⟩ ∧
    resume "x" [("_paused", JVal.bool true)] = [("_paused", JVal.bool true)] := by
  refine ⟨C7_pause_resume.1 [("t", JVal.time 5)] "x" (by decide),
          C7_pause_resume.2.1 [("_paused", JVal.arr ["a"])],
          C7_pause_resume.2.2 [("_paused", JVal.bool true)] "x" (by decide) (by decide)⟩

/-! ## Runner lemmas -/

/-- `runIfDue` performs no lock operation at all. -/
theorem runIfDue_trace_no_lock (env : RunEnv) (now : Nat) (job : Job) (s : StateMap) :
    (runIfDue env now job s).trace.all (fun e => !isLockEvent e) = true := by
  simp only [runIfDue]
  repeat' split
  all_goals rfl

/-- `runAllDue` performs no lock operation at all. -/
theorem runAllDue_trace_no_lock (env : RunEnv) (now : Nat) :
    ∀ (jobs : List Job) (s : StateMap),
      (runAllDue env now jobs s).trace.all (fun e => !isLockEvent e) = true := by
  intro jobs
  induction jobs with
  | nil => intro s; rfl
  | cons job rest ih =>
    intro s
    have hstep := runIfDue_trace_no_lock env now job s
    simp only [runAllDue]
    split <;> simp [List.all_append, hstep, ih]

/-- In `runJobNow` the user operation only ever runs between the
acquisition and the release of the per-job lock. -/
theorem userRunsLocked_runJobNow (env : RunEnv) (now : Nat) (job : Job)
    (options : Options) (s : StateMap) :
    userRunsLocked [] (runJobNow env now job options s).trace = true := by
  simp only [runJobNow]
  split
  · rfl
  · split
    · rfl
    · split
      · simp [userRunsLocked]
      · simp [userRunsLocked]

/-- Per-element count of the five result lists of `runAllDue`. -/
theorem runAllDue_count (env : RunEnv) (now : Nat) :
    ∀ (jobs : List Job) (s : StateMap) (x : String),
      (resultIds (runAllDue env now jobs s)).count x = (jobs.map jobIdOf).count x := by
  intro jobs
  induction jobs with
  | nil => intro s x; rfl
  | cons job rest ih =>
    intro s x
    have ih2 := ih (runIfDue env now job s).state x
    simp only [resultIds, List.count_append] at ih2
    simp only [runAllDue]
    split <;>
      simp [resultIds, List.count_append, List.count_cons, List.map_cons] <;>
      omega

/-! ## Runner claim theorems -/

/-- C1 (counterexample): a due, enabled, unpaused job processed by
`runAllDue` runs the user operation with no lock event at all, so the
user operation runs without the per-job lock being held. -/
theorem C1_counterexample :
    (runAllDue ⟨fun _ => true, fun _ => .ok 0⟩ 1000
        [{ id := "t", interval := some 60000 }] ∅).ran = ["t"] ∧
    (runAllDue ⟨fun _ => true, fun _ => .ok 0⟩ 1000
        [{ id := "t", interval := some 60000 }] ∅).trace =
      [.userRun "t", .markRunEv "t" none] ∧
    userRunsLocked [] (runAllDue ⟨fun _ => true, fun _ => .ok 0⟩ 1000
        [{ id := "t", interval := some 60000 }] ∅).trace = false := by
  exact ⟨by decide, by decide, by decide⟩

/-- C1 (amended): `runAllDue` executes the user operation of every due,
enabled, unpaused job via the same capture and persist sequence as
`runJobNow` but WITHOUT the per-job lock: its trace contains no lock
acquisition or release whatsoever.  Only `runJobNow` brackets the user
operation with the lock. -/
theorem C1_runAllDue_no_lock :
    (∀ (env : RunEnv) (now : Nat) (jobs : List Job) (s : StateMap),
      (runAllDue env now jobs s).trace.all (fun e => !isLockEvent e) = true) ∧
    (∀ (env : RunEnv) (now : Nat) (job : Job) (options : Options) (s : StateMap),
      userRunsLocked [] (runJobNow env now job options s).trace = true) := by
  exact ⟨fun env now jobs s => runAllDue_trace_no_lock env now jobs s,
         fun env now job options s => userRunsLocked_runJobNow env now job options s⟩

/-- C3: a failing user operation updates no persistent state, neither in
`runJobNow` (which re-raises the error after notifying) nor in `runIfDue`
(which classifies the job as failed); a successful executed run persists
exactly one `markRun`. -/
theorem C3_failed_run_updates_nothing :
    (∀ (env : RunEnv) (now : Nat) (job : Job) (options : Options) (s : StateMap)
        (e : String), job.run = .error e →
      (runJobNow env now job options s).state = s) ∧
    (∀ (env : RunEnv) (now : Nat) (job : Job) (options : Options) (s : StateMap)
        (e : String), job.run = .error e →
      (options.scheduled && isPaused s (jobIdOf job)) = false →
      env.lockFree (jobIdOf job) = true →
      (runJobNow env now job options s).result = .error e ∧
      (runJobNow env now job options s).trace =
        [.lockAcquire (jobIdOf job) true, .userRun (jobIdOf job),
         .notify (jobIdOf job), .lockRelease (jobIdOf job)]) ∧
    (∀ (env : RunEnv) (now : Nat) (job : Job) (s : StateMap) (e : String),
      job.run = .error e → (runIfDue env now job s).state = s) ∧
    (∀ (env : RunEnv) (now : Nat) (job : Job) (s : StateMap) (e : String),
      job.run = .error e → isEnabled job = true →
      isPaused s (jobIdOf job) = false →
      shouldRun env now job (getLastRun s (jobIdOf job)) = .ok true →
      (runIfDue env now job s).outcome = .failed) ∧
    (∀ (env : RunEnv) (now : Nat) (job : Job) (options : Options) (s : StateMap),
      job.run = .ok () →
      (options.scheduled && isPaused s (jobIdOf job)) = false →
      env.lockFree (jobIdOf job) = true →
      ((runJobNow env now job options s).trace.filter isMarkEvent).length = 1) := by
  refine ⟨?_, ?_, ?_, ?_, ?_⟩
  · intro env now job options s e h
    simp only [runJobNow]
    split
    · rfl
    · split
      · rfl
      · simp [h]
  · intro env now job options s e h hgate hlock
    simp [runJobNow, h, hgate, hlock]
  · intro env now job s e h
    simp only [runIfDue]
    split
    · rfl
    · split
      · rfl
      · split
        · rfl
        · rfl
        · simp [h]
  · intro env now job s e h henabled hpaused hdue
    simp [runIfDue, henabled, hpaused, hdue, h]
  · intro env now job options s h hgate hlock
    simp [runJobNow, h, hgate, hlock, isMarkEvent]

/-- C3 (witness): the theorem at a failing job `{id := "t"}` whose
operation throws `"boom"` (manual run, lock free, empty state) and at the
corresponding succeeding job. -/
theorem C3_witness :
    (runJobNow ⟨fun _ => true, fun _ => .ok 0⟩ 1000
        { id := "t", interval := some 60000, run := .error "boom" } ⟨false⟩ ∅).state = ∅ ∧
    (runJobNow ⟨fun _ => true, fun _ => .ok 0⟩ 1000
        { id := "t", interval := some 60000, run := .error "boom" } ⟨false⟩ ∅).result =
      .error "boom" ∧
    (runIfDue ⟨fun _ => true, fun _ => .ok 0⟩ 1000
        { id := "t", interval := some 60000, run := .error "boom" } ∅).state = ∅ ∧
    (runIfDue ⟨fun _ => true, fun _ => .ok 0⟩ 1000
        { id := "t", interval := some 60000, run := .error "boom" } ∅).outcome = .failed ∧
    ((runJobNow ⟨fun _ => true, fun _ => .ok 0⟩ 1000
        { id := "t", interval := some 60000 } ⟨true⟩ ∅).trace.filter isMarkEvent).length = 1 := by
  refine ⟨C3_failed_run_updates_nothing.1 _ 1000 _ ⟨false⟩ ∅ "boom" (by rfl),
          (C3_failed_run_updates_nothing.2.1 _ 1000 _ ⟨false⟩ ∅ "boom" (by rfl)
            (by decide) (by rfl)).1,
          C3_failed_run_updates_nothing.2.2.1 _ 1000 _ ∅ "boom" (by rfl),
          C3_failed_run_updates_nothing.2.2.2.1 _ 1000 _ ∅ "boom" (by rfl) (by decide)
            (by decide) (by decide),
          C3_failed_run_updates_nothing.2.2.2.2 _ 1000 _ ⟨true⟩ ∅ (by rfl)
            (by decide) (by rfl)⟩

/-- C4: the five result lists of `runAllDue` partition the qualified ids
of the input: the concatenation is a permutation of the input ids, and
when the input ids are distinct every job's id appears exactly once
across the five lists. -/
theorem C4_runAllDue_partition :
    ∀ (env : RunEnv) (now : Nat) (jobs : List Job) (s : StateMap),
      (resultIds (runAllDue env now jobs s)).Perm (jobs.map jobIdOf) ∧
      ((jobs.map jobIdOf).Nodup → ∀ job ∈ jobs,
        (resultIds (runAllDue env now jobs s)).count (jobIdOf job) = 1) := by
  intro env now jobs s
  constructor
  · exact List.perm_iff_count.mpr (fun x => runAllDue_count env now jobs s x)
  · intro hnd job hmem
    rw [runAllDue_count env now jobs s (jobIdOf job)]
    exact List.count_eq_one_of_mem hnd (List.mem_map_of_mem jobIdOf hmem)

/-- C4 (witness): the theorem at a two-job list (one due, one disabled)
with distinct ids, from the empty state. -/
theorem C4_witness :
    (resultIds (runAllDue ⟨fun _ => true, fun _ => .ok 0⟩ 1000
      [{ id := "a", interval := some 60000 },
       { id := "b", interval := some 60000, enabled := some false }] ∅)).Perm
      (["a", "b"] : List String) ∧
    (resultIds (runAllDue ⟨fun _ => true, fun _ => .ok 0⟩ 1000
      [{ id := "a", interval := some 60000 },
       { id := "b", interval := some 60000, enabled := some false }] ∅)).count "a" = 1 := by
  refine ⟨(C4_runAllDue_partition ⟨fun _ => true, fun _ => .ok 0⟩ 1000
      [{ id := "a", interval := some 60000 },
       { id := "b", interval := some 60000, enabled := some false }] ∅).1, ?_⟩
  exact (C4_runAllDue_partition ⟨fun _ => true, fun _ => .ok 0⟩ 1000
      [{ id := "a", interval := some 60000 },
       { id := "b", interval := some 60000, enabled := some false }] ∅).2
    (by decide) { id := "a", interval := some 60000 } (by simp)

/-! ## Registry round-trip lemmas -/

theorem splitFirst_not_mem (c : Char) (l : List Char) (h : c ∉ l) :
    splitFirst c l = none := by
  induction l with
  | nil => rfl
  | cons x xs ih =>
    have hx : ¬x = c := fun hh => h (hh ▸ List.mem_cons_self x xs)
    simp [splitFirst, hx, ih (fun hm => h (List.mem_cons_of_mem _ hm))]

theorem splitFirst_append (c : Char) (a b : List Char) (h : c ∉ a) :
    splitFirst c (a ++ c :: b) = some (a, b) := by
  induction a with
  | nil => simp [splitFirst]
  | cons x xs ih =>
    have hx : ¬x = c := fun hh => h (hh ▸ List.mem_cons_self x xs)
    simp [splitFirst, hx, ih (fun hm => h (List.mem_cons_of_mem _ hm))]

theorem stringMk_toList (s : String) : String.mk s.toList = s := by
  cases s
  rfl

/-- A validated id consists solely of letters, digits, underscores and
hyphens (the final check of `validateJobId`). -/
theorem validateJobId_ok_all_idChars (id : String) (h : validateJobId id = .ok ()) :
    id.toList.all isIdChar = true := by
  unfold validateJobId at h
  split at h
  · simp at h
  · split at h
    · simp at h
    · split at h
      · simp at h
      · split at h
        · simp at h
        · split at h
          · simp at h
          · split at h
            · simp at h
            · rename_i hAll
              simpa using hAll

/-- A validated id contains no slash. -/
theorem validateJobId_ok_no_slash (id : String) (h : validateJobId id = .ok ()) :
    '/' ∉ id.toList := by
  intro hmem
  have hall := validateJobId_ok_all_idChars id h
  have hc := List.all_eq_true.mp hall _ hmem
  exact absurd hc (by decide)

/-- C8: `parseQualifiedId` after `qualifyJobId` recovers the namespace and
the bare id for every valid pair: a truthy slash-free namespace is
prepended as `ns/` and parsing splits at the first slash; without a
namespace, qualifying is the identity and parsing yields no namespace. -/
theorem C8_qualify_parse_roundtrip :
    (∀ (id ns : String), ns ≠ "" → '/' ∉ ns.toList →
      parseQualifiedId (qualifyJobId id (some ns)) = (some ns, id)) ∧
    (∀ id : String, validateJobId id = .ok () →
      parseQualifiedId (qualifyJobId id none) = (none, id)) := by
  constructor
  · intro id ns hns hslash
    have hq : qualifyJobId id (some ns) = ns ++ "/" ++ id := by
      simp [qualifyJobId, hns]
    rw [hq]
    unfold parseQualifiedId
    have hdata : (ns ++ "/" ++ id).toList = ns.toList ++ '/' :: id.toList := by
      show (ns ++ "/" ++ id).data = ns.data ++ '/' :: id.data
      simp [String.data_append]
    rw [hdata, splitFirst_append _ _ _ hslash]
    simp [stringMk_toList]
  · intro id h
    have hs : '/' ∉ id.data := validateJobId_ok_no_slash id h
    simp [qualifyJobId, parseQualifiedId, splitFirst_not_mem _ _ hs]

/-- C8 (witness): the round trip at `(id, ns) = ("tick", "pm")` and at the
bare valid id `"tick"`. -/
theorem C8_witness :
    parseQualifiedId (qualifyJobId "tick" (some "pm")) = (some "pm", "tick") ∧
    parseQualifiedId (qualifyJobId "tick" none) = (none, "tick") := by
  exact ⟨C8_qualify_parse_roundtrip.1 "tick" "pm" (by decide) (by decide),
         C8_qualify_parse_roundtrip.2 "tick" (by decide)⟩

/-- C10: `runJobNow` never consults the `enabled` flag (its result is
unchanged if the flag is forced to `false`, and a disabled job with a
free lock still runs the user operation and marks state); the only
disabled gate lives in the CLI `run` action, which skips a disabled job
exactly when `--scheduled` is passed. -/
theorem C10_runJobNow_ignores_enabled :
    (∀ (env : RunEnv) (now : Nat) (job : Job) (options : Options) (s : StateMap),
      runJobNow env now job options s =
        runJobNow env now { job with enabled := some false } options s) ∧
    (∀ (env : RunEnv) (now : Nat) (job : Job) (s : StateMap),
      isEnabled job = false → cliRun env now job true s = .skippedDisabled) ∧
    (∀ (env : RunEnv) (now : Nat) (job : Job) (s : StateMap),
      cliRun env now job false s = .completed (runJobNow env now job ⟨false⟩ s)) ∧
    (∀ (env : RunEnv) (now : Nat) (job : Job) (s : StateMap),
      isEnabled job = false → env.lockFree (jobIdOf job) = true →
      job.run = .ok () →
      (runJobNow env now job ⟨false⟩ s).trace =
        [.lockAcquire (jobIdOf job) true, .userRun (jobIdOf job),
         .markRunEv (jobIdOf job) none, .lockRelease (jobIdOf job)] ∧
      (runJobNow env now job ⟨false⟩ s).state = markRun now (jobIdOf job) none s) := by
  refine ⟨?_, ?_, ?_, ?_⟩
  · intro env now job options s
    cases job
    rfl
  · intro env now job s h
    simp [cliRun, h]
  · intro env now job s
    simp [cliRun]
  · intro env now job s _ hlock hrun
    constructor <;> simp [runJobNow, hlock, hrun]

/-- C10 (witness): the theorem at the disabled job `{id := "t",
interval := 60000, enabled := false}` with a free lock and empty state. -/
theorem C10_witness :
    runJobNow ⟨fun _ => true, fun _ => .ok 0⟩ 1000
        { id := "t", interval := some 60000, enabled := some false } ⟨false⟩ ∅ =
      runJobNow ⟨fun _ => true, fun _ => .ok 0⟩ 1000
        { ({ id := "t", interval := some 60000, enabled := some false } : Job) with
          enabled := some false } ⟨false⟩ ∅ ∧
    cliRun ⟨fun _ => true, fun _ => .ok 0⟩ 1000
        { id := "t", interval := some 60000, enabled := some false } true ∅ =
      .skippedDisabled ∧
    cliRun ⟨fun _ => true, fun _ => .ok 0⟩ 1000
        { id := "t", interval := some 60000, enabled := some false } false ∅ =
      .completed (runJobNow ⟨fun _ => true, fun _ => .ok 0⟩ 1000
        { id := "t", interval := some 60000, enabled := some false } ⟨false⟩ ∅) ∧
    (runJobNow ⟨fun _ => true, fun _ => .ok 0⟩ 1000
        { id := "t", interval := some 60000, enabled := some false } ⟨false⟩ ∅).trace =
      [.lockAcquire "t" true, .userRun "t", .markRunEv "t" none, .lockRelease "t"] ∧
    (runJobNow ⟨fun _ => true, fun _ => .ok 0⟩ 1000
        { id := "t", interval := some 60000, enabled := some false } ⟨false⟩ ∅).state =
      markRun 1000 "t" none ∅ := by
  refine ⟨C10_runJobNow_ignores_enabled.1 _ 1000 _ ⟨false⟩ ∅,
          C10_runJobNow_ignores_enabled.2.1 _ 1000 _ ∅ (by decide),
          C10_runJobNow_ignores_enabled.2.2.1 _ 1000 _ ∅, ?_, ?_⟩
  · exact (C10_runJobNow_ignores_enabled.2.2.2 _ 1000
      { id := "t", interval := some 60000, enabled := some false } ∅
      (by decide) (by rfl) (by rfl)).1
  · exact (C10_runJobNow_ignores_enabled.2.2.2 _ 1000
      { id := "t", interval := some 60000, enabled := some false } ∅
      (by decide) (by rfl) (by rfl)).2

/-- C9: `parseCronExpression` maps the four spec phrases to exactly the
claimed cron expressions, with `12 am` as hour 0 and `12 pm` as hour 12. -/
theorem C9_parseCronExpression_phrases :
    parseCronExpression "every 5 minutes" = .ok "*/5 * * * *" ∧
    parseCronExpression "on monday,wednesday,friday at 9:00" = .ok "0 9 * * 1,3,5" ∧
    parseCronExpression "at 12:30 am" = .ok "30 0 * * *" ∧
    parseCronExpression "at 12:30 pm" = .ok "30 12 * * *" := by
  exact ⟨by decide, by decide, by decide, by decide⟩

end CronBurgundy
